import Mathlib

/-!
Verification of the WSJ FX API request handler (`src/api/fx.js`).

The development shallowly embeds the handler: the calendar arithmetic the
JS `Date` object performs in `priorBizIfWeekend`, the CSV row matcher
`parseWSJCSV`, the per-symbol fetcher `fetchWSJ` (with the network modelled
as an oracle from URLs to responses), the request parsing and response
assembly of the exported handler, and the bounded worker pool as a step
relation. Machine numbers are `Int`/`Nat`; JS `/` on dates never occurs
(all divisions below are floor divisions by positive constants, which is
`Int`'s `/`).
-/

/-- A proleptic Gregorian calendar date, the value the JS `Date` object in
`priorBizIfWeekend` denotes (year, month `1..12`, day `1..31`). -/
structure CalDate where
  year : Int
  month : Int
  day : Int
  deriving DecidableEq, Repr

/-- Gregorian leap-year test (ECMA-262 `InLeapYear`). -/
def isLeap (y : Int) : Bool := y % 4 == 0 && (y % 100 != 0 || y % 400 == 0)

/-- Cumulative count of days strictly before month `m` (ECMA-262 day-within-year
table), with the leap-day correction from March onwards. -/
def daysBeforeMonth (leap : Bool) (m : Int) : Int :=
  (if m = 1 then 0 else if m = 2 then 31 else if m = 3 then 59
   else if m = 4 then 90 else if m = 5 then 120 else if m = 6 then 151
   else if m = 7 then 181 else if m = 8 then 212 else if m = 9 then 243
   else if m = 10 then 273 else if m = 11 then 304 else 334)
  + (if leap ∧ 3 ≤ m then 1 else 0)

/-- Number of days in month `m`. -/
def daysInMonth (leap : Bool) (m : Int) : Int :=
  if m = 2 then (if leap then 29 else 28)
  else if m = 4 ∨ m = 6 ∨ m = 9 ∨ m = 11 then 30 else 31

/-- ECMA-262 `DayFromYear`: days from 1970-01-01 to the start of year `y`. -/
def dayFromYear (y : Int) : Int :=
  365 * (y - 1970) + (y - 1969) / 4 - (y - 1901) / 100 + (y - 1601) / 400

/-- Epoch day number of a calendar date (ECMA-262 `MakeDay`): days since
1970-01-01. -/
def epochDay (t : CalDate) : Int :=
  dayFromYear t.year + daysBeforeMonth (isLeap t.year) t.month + (t.day - 1)

/-- JS `Date.prototype.getDay`: 0 = Sunday .. 6 = Saturday.  The handler
builds the date at `T00:00:00-04:00`, so the weekday it observes is the
weekday of the civil date itself. -/
def dayOfWeek (t : CalDate) : Int := (epochDay t + 4) % 7

/-- The date is a real calendar date (what the JS `Date` parser accepts in
`YYYY-MM-DD` position, up to the year range the format can express). -/
def validDate (t : CalDate) : Prop :=
  1 ≤ t.month ∧ t.month ≤ 12 ∧ 1 ≤ t.day ∧ t.day ≤ daysInMonth (isLeap t.year) t.month

instance (t : CalDate) : Decidable (validDate t) := by
  unfold validDate; infer_instance

/-- The calendar date one day earlier: the effect of
`d.setDate(d.getDate() - 1)` on the civil date. -/
def prevDay (t : CalDate) : CalDate :=
  if 1 < t.day then ⟨t.year, t.month, t.day - 1⟩
  else if 1 < t.month then ⟨t.year, t.month - 1, daysInMonth (isLeap t.year) (t.month - 1)⟩
  else ⟨t.year - 1, 12, 31⟩

/-- `priorBizIfWeekend` from `src/api/fx.js` on the calendar date it
manipulates: Saturday rolls back one day, Sunday two, else unchanged.
(The two separate `if`s in the source test the cached weekday `wd`, so they
are mutually exclusive and equal this `if`/`else if`.) -/
def priorBizIfWeekend (t : CalDate) : CalDate :=
  let wd := dayOfWeek t
  if wd = 6 then prevDay t
  else if wd = 0 then prevDay (prevDay t) else t

theorem daysBeforeMonth_succ (leap : Bool) (m : Int) (h1 : 2 ≤ m) (h2 : m ≤ 12) :
    daysBeforeMonth leap m = daysBeforeMonth leap (m - 1) + daysInMonth leap (m - 1) := by
  revert leap
  interval_cases m <;> intro leap <;> cases leap <;> decide

theorem isLeap_iff (y : Int) :
    isLeap y = true ↔ (y % 4 = 0 ∧ (y % 100 ≠ 0 ∨ y % 400 = 0)) := by
  simp [isLeap]

theorem dayFromYear_succ_leap (y : Int) (h : isLeap (y - 1) = true) :
    dayFromYear y = dayFromYear (y - 1) + 366 := by
  have hi := (isLeap_iff (y - 1)).1 h
  unfold dayFromYear
  omega

theorem dayFromYear_succ_common (y : Int) (h : isLeap (y - 1) = false) :
    dayFromYear y = dayFromYear (y - 1) + 365 := by
  have hi : ¬((y - 1) % 4 = 0 ∧ ((y - 1) % 100 ≠ 0 ∨ (y - 1) % 400 = 0)) := by
    rw [← isLeap_iff, h]; simp
  unfold dayFromYear
  omega

theorem daysInMonth_pos (leap : Bool) (m : Int) : 1 ≤ daysInMonth leap m := by
  unfold daysInMonth
  split
  · cases leap <;> simp
  · split <;> simp

theorem epochDay_prevDay (t : CalDate) (h : validDate t) :
    epochDay (prevDay t) = epochDay t - 1 := by
  obtain ⟨hm1, hm2, hd1, hd2⟩ := h
  unfold prevDay
  split
  · simp only [epochDay]
    omega
  · split
    · rename_i hdle hmgt
      simp only [epochDay]
      have := daysBeforeMonth_succ (isLeap t.year) t.month (by omega) hm2
      omega
    · rename_i hdle hmle
      have hm : t.month = 1 := by omega
      have hd : t.day = 1 := by omega
      simp only [epochDay, hm, hd]
      have h1 : daysBeforeMonth (isLeap t.year) 1 = 0 := by
        cases isLeap t.year <;> decide
      rw [h1]
      cases hl : isLeap (t.year - 1)
      · have hy := dayFromYear_succ_common t.year hl
        have h12 : daysBeforeMonth false 12 = 334 := by decide
        rw [h12]
        omega
      · have hy := dayFromYear_succ_leap t.year hl
        have h12 : daysBeforeMonth true 12 = 335 := by decide
        rw [h12]
        omega

theorem validDate_prevDay (t : CalDate) (h : validDate t) : validDate (prevDay t) := by
  obtain ⟨hm1, hm2, hd1, hd2⟩ := h
  unfold prevDay validDate
  split
  · dsimp only
    omega
  · split
    · dsimp only
      exact ⟨by omega, by omega, daysInMonth_pos _ _, le_refl _⟩
    · dsimp only
      refine ⟨by norm_num, by norm_num, by norm_num, ?_⟩
      cases isLeap (t.year - 1) <;> decide

theorem dayOfWeek_prevDay (t : CalDate) (h : validDate t) :
    dayOfWeek (prevDay t) = (dayOfWeek t + 6) % 7 := by
  unfold dayOfWeek
  rw [epochDay_prevDay t h]
  omega

/-- C2: date resolution.  For every valid calendar date, the resolver maps a
Saturday (weekday 6 in the fixed UTC-4 reference reading of the input) to the
date one day earlier, a Sunday to the date two days earlier, and any other
weekday to the same date; in particular 2024-06-08 resolves to 2024-06-07,
2024-06-09 to 2024-06-07, and 2024-06-10 to itself. -/
theorem priorBiz_resolution :
    (∀ t : CalDate, validDate t →
      (dayOfWeek t = 6 → priorBizIfWeekend t = prevDay t ∧
        epochDay (priorBizIfWeekend t) = epochDay t - 1) ∧
      (dayOfWeek t = 0 → priorBizIfWeekend t = prevDay (prevDay t) ∧
        epochDay (priorBizIfWeekend t) = epochDay t - 2) ∧
      (dayOfWeek t ≠ 6 → dayOfWeek t ≠ 0 → priorBizIfWeekend t = t)) ∧
    priorBizIfWeekend ⟨2024, 6, 8⟩ = ⟨2024, 6, 7⟩ ∧
    priorBizIfWeekend ⟨2024, 6, 9⟩ = ⟨2024, 6, 7⟩ ∧
    priorBizIfWeekend ⟨2024, 6, 10⟩ = ⟨2024, 6, 10⟩ := by
  refine ⟨fun t ht => ⟨?_, ?_, ?_⟩, by decide, by decide, by decide⟩
  · intro h6
    have he : priorBizIfWeekend t = prevDay t := by
      unfold priorBizIfWeekend
      simp [h6]
    refine ⟨he, ?_⟩
    rw [he, epochDay_prevDay t ht]
  · intro h0
    have he : priorBizIfWeekend t = prevDay (prevDay t) := by
      unfold priorBizIfWeekend
      simp [h0]
    refine ⟨he, ?_⟩
    rw [he, epochDay_prevDay (prevDay t) (validDate_prevDay t ht), epochDay_prevDay t ht]
    omega
  · intro h6 h0
    unfold priorBizIfWeekend
    simp [h6, h0]

/-- Witness for `priorBiz_resolution`: instantiated at the Saturday
2024-06-08. -/
theorem priorBiz_resolution_witness :
    priorBizIfWeekend ⟨2024, 6, 8⟩ = prevDay ⟨2024, 6, 8⟩ ∧
    epochDay (priorBizIfWeekend ⟨2024, 6, 8⟩) = epochDay ⟨2024, 6, 8⟩ - 1 :=
  (priorBiz_resolution.1 ⟨2024, 6, 8⟩ (by decide)).1 (by decide)

/-- C9: resolving is idempotent.  The resolver never outputs a Saturday or a
Sunday, so applying it to its own output changes nothing. -/
theorem priorBiz_idempotent (t : CalDate) (h : validDate t) :
    priorBizIfWeekend (priorBizIfWeekend t) = priorBizIfWeekend t := by
  have hwd : 0 ≤ dayOfWeek t ∧ dayOfWeek t < 7 := by
    unfold dayOfWeek; omega
  by_cases h6 : dayOfWeek t = 6
  · have he : priorBizIfWeekend t = prevDay t := by
      unfold priorBizIfWeekend; simp [h6]
    have hw : dayOfWeek (prevDay t) = 5 := by
      rw [dayOfWeek_prevDay t h, h6]; decide
    rw [he]
    unfold priorBizIfWeekend
    simp [hw]
  · by_cases h0 : dayOfWeek t = 0
    · have he : priorBizIfWeekend t = prevDay (prevDay t) := by
        unfold priorBizIfWeekend; simp [h0]
      have hw : dayOfWeek (prevDay (prevDay t)) = 5 := by
        rw [dayOfWeek_prevDay (prevDay t) (validDate_prevDay t h),
          dayOfWeek_prevDay t h, h0]
        decide
      rw [he]
      unfold priorBizIfWeekend
      simp [hw]
    · have he : priorBizIfWeekend t = t := by
        unfold priorBizIfWeekend; simp [h6, h0]
      rw [he, he]

/-- Witness for `priorBiz_idempotent` at the Sunday 2024-06-09. -/
theorem priorBiz_idempotent_witness :
    priorBizIfWeekend (priorBizIfWeekend ⟨2024, 6, 9⟩) = priorBizIfWeekend ⟨2024, 6, 9⟩ :=
  priorBiz_idempotent ⟨2024, 6, 9⟩ (by decide)

/-! ### JS string primitives

The handler manipulates strings through `toUpperCase`, `trim`, `split`,
`toLowerCase`, `padStart`, lexicographic comparison and
`encodeURIComponent`.  They are modelled on `String.data` (`List Char`);
`Char.toUpper`/`Char.toLower` from core match the JS behaviour on the
ASCII range this API traffics in. -/

/-- Whitespace stripped by JS `String.prototype.trim` (the ASCII part of
the WhiteSpace/LineTerminator productions). -/
def wsChar (c : Char) : Bool :=
  c == ' ' || c == '\t' || c == '\n' || c == '\r' || c == '\x0b' || c == '\x0c'

/-- JS `String.prototype.trim` on the character list. -/
def jsTrimL (l : List Char) : List Char :=
  ((l.dropWhile wsChar).reverse.dropWhile wsChar).reverse

def jsTrim (s : String) : String := ⟨jsTrimL s.data⟩

/-- JS `String.prototype.toUpperCase` (ASCII). -/
def jsUpper (s : String) : String := ⟨s.data.map Char.toUpper⟩

/-- JS `String.prototype.toLowerCase` (ASCII). -/
def jsLower (s : String) : String := ⟨s.data.map Char.toLower⟩

/-- `String(s).toUpperCase().trim()` — the symbol normalisation the handler
and the fetcher both apply. -/
def normSym (s : String) : String := jsTrim (jsUpper s)

/-- JS `String.prototype.split` with a one-character separator. -/
def splitCharAux (sep : Char) : List Char → List Char → List (List Char)
  | [], acc => [acc.reverse]
  | c :: rest, acc =>
    if c = sep then acc.reverse :: splitCharAux sep rest []
    else splitCharAux sep rest (c :: acc)

def jsSplit (sep : Char) (s : String) : List String :=
  (splitCharAux sep s.data []).map String.mk

/-- JS `String.prototype.padStart(n, "0")`. -/
def jsPadZero (n : Nat) (s : String) : String :=
  ⟨List.replicate (n - s.data.length) '0' ++ s.data⟩

/-- Strict lexicographic comparison of character lists by code point — the
order JS `<`, `>` and (for ASCII) default-locale `localeCompare` induce. -/
def charListLtB : List Char → List Char → Bool
  | [], [] => false
  | [], _ :: _ => true
  | _ :: _, [] => false
  | a :: as, b :: bs => if a < b then true else if b < a then false else charListLtB as bs

/-- JS `a > b` on strings. -/
def strGtB (a b : String) : Bool := charListLtB b.data a.data

/-- `a ≤ b` on strings in code-point order.  The source's final sort
comparator is `a.symbol.localeCompare(b.symbol)` (default-locale ICU
collation); on strings of ASCII uppercase letters and digits — every
symbol a well-formed FX request produces — that collation coincides with
this code-point order, but on punctuated strings it does not (ICU orders
ASCII punctuation before letters, e.g. `"_" < "A"`), so the sortedness
theorem below is scoped to the letters-and-digits alphabet. -/
def strLeB (a b : String) : Bool := !charListLtB b.data a.data

theorem charListLtB_asymm (a b : List Char) (h : charListLtB a b = true) :
    charListLtB b a = false := by
  induction a generalizing b with
  | nil =>
    cases b with
    | nil => simp [charListLtB] at h
    | cons y ys => simp [charListLtB]
  | cons x xs ih =>
    cases b with
    | nil => simp [charListLtB] at h
    | cons y ys =>
      simp only [charListLtB] at h ⊢
      by_cases hxy : x < y
      · simp [hxy, Char.lt_asymm hxy] at *
      · by_cases hyx : y < x
        · simp [hxy, hyx] at h
        · simp only [hxy, hyx, if_false] at h ⊢
          exact ih ys h

theorem charListLtB_total_eq (a b : List Char)
    (h1 : charListLtB a b = false) (h2 : charListLtB b a = false) : a = b := by
  induction a generalizing b with
  | nil =>
    cases b with
    | nil => rfl
    | cons y ys => simp [charListLtB] at h1
  | cons x xs ih =>
    cases b with
    | nil => simp [charListLtB] at h2
    | cons y ys =>
      simp only [charListLtB] at h1 h2
      by_cases hxy : x < y
      · simp [hxy] at h1
      · by_cases hyx : y < x
        · simp [hyx, hxy] at h2
        · simp only [hxy, hyx, if_false] at h1 h2
          have hx : x = y := Char.le_antisymm (by simpa using hyx) (by simpa using hxy)
          rw [hx, ih ys h1 h2]

theorem charListLtB_trans (a b c : List Char)
    (h1 : charListLtB a b = true) (h2 : charListLtB b c = true) :
    charListLtB a c = true := by
  induction a generalizing b c with
  | nil =>
    cases c with
    | nil =>
      cases b with
      | nil => exact h1
      | cons y ys => simp [charListLtB] at h2
    | cons z zs => simp [charListLtB]
  | cons x xs ih =>
    cases b with
    | nil => simp [charListLtB] at h1
    | cons y ys =>
      cases c with
      | nil => simp [charListLtB] at h2
      | cons z zs =>
        simp only [charListLtB] at h1 h2 ⊢
        rcases lt_trichotomy x y with hxy | hxy | hxy
        · rcases lt_trichotomy y z with hyz | hyz | hyz
          · simp [lt_trans hxy hyz]
          · subst hyz; simp [hxy]
          · simp [lt_asymm hyz, hyz] at h2
        · subst hxy
          simp only [lt_irrefl, if_false] at h1
          rcases lt_trichotomy x z with hxz | hxz | hxz
          · simp [hxz]
          · subst hxz
            simp only [lt_irrefl, if_false] at h2 ⊢
            exact ih ys zs h1 h2
          · simp [lt_asymm hxz, hxz] at h2
        · simp [lt_asymm hxy, hxy] at h1

theorem char_toNat_ofNat_valid (n : Nat) (h : n.isValidChar) :
    (Char.ofNat n).toNat = n := by
  rw [Char.ofNat, dif_pos h]
  rfl

theorem char_ne_of_toNat_ne {a b : Char} (h : a.toNat ≠ b.toNat) : a ≠ b :=
  fun he => h (he ▸ rfl)

theorem toUpper_toNat_of_lower (c : Char) (h1 : 97 ≤ c.toNat) (h2 : c.toNat ≤ 122) :
    c.toUpper.toNat = c.toNat - 32 := by
  unfold Char.toUpper
  rw [if_pos ⟨h1, h2⟩]
  exact char_toNat_ofNat_valid _ (Or.inl (by omega))

theorem toUpper_eq_self (c : Char) (h : ¬(97 ≤ c.toNat ∧ c.toNat ≤ 122)) :
    c.toUpper = c := by
  unfold Char.toUpper
  rw [if_neg h]

theorem wsChar_eq_iff (c : Char) :
    wsChar c = true ↔ (c.toNat = 32 ∨ c.toNat = 9 ∨ c.toNat = 10 ∨ c.toNat = 13 ∨
      c.toNat = 11 ∨ c.toNat = 12) := by
  unfold wsChar
  constructor
  · intro h
    simp only [Bool.or_eq_true, beq_iff_eq] at h
    rcases h with ((((h | h) | h) | h) | h) | h <;> subst h <;> simp
  · intro h
    have he : c = Char.ofNat c.toNat := by
      rw [Char.ofNat_toNat]
    simp only [Bool.or_eq_true, beq_iff_eq]
    rcases h with h | h | h | h | h | h <;> rw [he, h] <;> simp

theorem wsChar_toUpper (c : Char) : wsChar c.toUpper = wsChar c := by
  by_cases h : 97 ≤ c.toNat ∧ c.toNat ≤ 122
  · have hup := toUpper_toNat_of_lower c h.1 h.2
    have hl : wsChar c = false := by
      rw [← Bool.not_eq_true, wsChar_eq_iff]
      omega
    have hu : wsChar c.toUpper = false := by
      rw [← Bool.not_eq_true, wsChar_eq_iff]
      omega
    rw [hl, hu]
  · rw [toUpper_eq_self c h]

theorem toUpper_toUpper (c : Char) : c.toUpper.toUpper = c.toUpper := by
  by_cases h : 97 ≤ c.toNat ∧ c.toNat ≤ 122
  · have hup := toUpper_toNat_of_lower c h.1 h.2
    exact toUpper_eq_self _ (by omega)
  · rw [toUpper_eq_self c h, toUpper_eq_self c h]

theorem dropWhile_dropWhile {α : Type} (p : α → Bool) (l : List α) :
    (l.dropWhile p).dropWhile p = l.dropWhile p := by
  induction l with
  | nil => rfl
  | cons x xs ih =>
    by_cases h : p x = true
    · rw [List.dropWhile_cons_of_pos h, ih]
    · rw [List.dropWhile_cons_of_neg (by simpa using h),
        List.dropWhile_cons_of_neg (by simpa using h)]

theorem wsChar_comp_toUpper : (wsChar ∘ Char.toUpper) = wsChar := by
  funext c
  exact wsChar_toUpper c

theorem jsUpperL_trim_comm (l : List Char) :
    (jsTrimL l).map Char.toUpper = jsTrimL (l.map Char.toUpper) := by
  unfold jsTrimL
  have hws : ∀ m : List Char,
      (m.map Char.toUpper).dropWhile wsChar = (m.dropWhile wsChar).map Char.toUpper := by
    intro m
    rw [List.dropWhile_map, wsChar_comp_toUpper]
  rw [hws, ← List.map_reverse, hws, List.map_reverse]

theorem dropWhile_prefix_fixed (p : Char → Bool) (z r y : List Char)
    (hy : z ++ r = y) (h : y.dropWhile p = y) : z.dropWhile p = z := by
  cases z with
  | nil => rfl
  | cons c t =>
    have hcy : y = c :: (t ++ r) := by rw [← hy]; rfl
    have hc : ¬ (p c = true) := by
      intro hpc
      rw [hcy, List.dropWhile_cons_of_pos hpc] at h
      have hlen : ((t ++ r).dropWhile p).length = (t ++ r).length + 1 := by
        rw [h, List.length_cons]
      have hsub : ((t ++ r).dropWhile p).length ≤ (t ++ r).length :=
        (List.dropWhile_sublist p).length_le
      omega
    rw [List.dropWhile_cons_of_neg hc]

theorem jsTrimL_idem (l : List Char) : jsTrimL (jsTrimL l) = jsTrimL l := by
  have hrev : (jsTrimL l).reverse.dropWhile wsChar = (jsTrimL l).reverse := by
    unfold jsTrimL
    rw [List.reverse_reverse]
    exact dropWhile_dropWhile wsChar _
  have hpre : (jsTrimL l).dropWhile wsChar = jsTrimL l := by
    have hsuf : (l.dropWhile wsChar).reverse.dropWhile wsChar <:+ (l.dropWhile wsChar).reverse :=
      List.dropWhile_suffix wsChar
    obtain ⟨t, ht⟩ := hsuf
    have hz : jsTrimL l ++ t.reverse = l.dropWhile wsChar := by
      unfold jsTrimL
      have := congrArg List.reverse ht
      rw [List.reverse_append] at this
      simpa using this
    exact dropWhile_prefix_fixed wsChar (jsTrimL l) t.reverse (l.dropWhile wsChar)
      hz (dropWhile_dropWhile wsChar l)
  calc jsTrimL (jsTrimL l)
      = (((jsTrimL l).dropWhile wsChar).reverse.dropWhile wsChar).reverse := rfl
    _ = ((jsTrimL l).reverse.dropWhile wsChar).reverse := by rw [hpre]
    _ = (jsTrimL l).reverse.reverse := by rw [hrev]
    _ = jsTrimL l := List.reverse_reverse _

theorem jsUpperL_idem (l : List Char) :
    (l.map Char.toUpper).map Char.toUpper = l.map Char.toUpper := by
  rw [List.map_map]
  apply List.map_congr_left
  intro c _
  exact toUpper_toUpper c

/-- Normalising twice is normalising once: `String(x).toUpperCase().trim()`
is idempotent. -/
theorem normSym_idem (s : String) : normSym (normSym s) = normSym s := by
  unfold normSym jsTrim jsUpper
  congr 1
  show jsTrimL ((jsTrimL (s.data.map Char.toUpper)).map Char.toUpper) = jsTrimL (s.data.map Char.toUpper)
  rw [jsUpperL_trim_comm, jsUpperL_idem, jsTrimL_idem]

/-! ### The CSV row matcher `parseWSJCSV` and the JS `Number` model -/

/-- Result of a successful row match: the normalized ISO date of the row and
the close field kept as the literal string. -/
structure RowHit where
  date : String
  close : String
  deriving DecidableEq, Repr

/-- Does `Number(s)` evaluate to NaN?  `Number` trims whitespace, accepts the
empty string (as 0), signed decimal literals with optional fraction and
exponent, `Infinity`, and unsigned `0x`/`0o`/`0b` integer literals. -/
def expOk : List Char → Bool
  | [] => true
  | c :: rest =>
    (c == 'e' || c == 'E') &&
    (let rest2 := if rest.head? = some '+' ∨ rest.head? = some '-' then rest.tail else rest
     !rest2.isEmpty && rest2.all Char.isDigit)

def mantExpOk (l : List Char) : Bool :=
  let ds1 := l.takeWhile Char.isDigit
  let r1 := l.dropWhile Char.isDigit
  if ds1.isEmpty then
    match r1 with
    | '.' :: r2 =>
      let ds2 := r2.takeWhile Char.isDigit
      !ds2.isEmpty && expOk (r2.dropWhile Char.isDigit)
    | _ => false
  else
    match r1 with
    | [] => true
    | '.' :: r2 => expOk (r2.dropWhile Char.isDigit)
    | _ => expOk r1

def signedNumOk (l : List Char) : Bool :=
  let l2 := match l with
    | '+' :: r => r
    | '-' :: r => r
    | _ => l
  l2 == "Infinity".data || mantExpOk l2

def isHexDig (c : Char) : Bool :=
  c.isDigit || ('a' ≤ c && c ≤ 'f') || ('A' ≤ c && c ≤ 'F')

def isOctDig (c : Char) : Bool := '0' ≤ c && c ≤ '7'

def isBinDig (c : Char) : Bool := c == '0' || c == '1'

def jsNumericB (s : String) : Bool :=
  let l := (jsTrim s).data
  if l.isEmpty then true
  else
    match l with
    | '0' :: c :: rest =>
      if c == 'x' || c == 'X' then !rest.isEmpty && rest.all isHexDig
      else if c == 'o' || c == 'O' then !rest.isEmpty && rest.all isOctDig
      else if c == 'b' || c == 'B' then !rest.isEmpty && rest.all isBinDig
      else signedNumOk l
    | _ => signedNumOk l

/-- `isNaN(Number(s))`. -/
def jsIsNaNNumber (s : String) : Bool := !jsNumericB s

/-- The columns of one CSV line, trimmed. -/
def rowCols (line : String) : List String := (jsSplit ',' line).map jsTrim

/-- Normalize a row's date cell `mm/dd/yy[yy]` to ISO, with the 2-digit-year
pivot (`yy > "50"`, a lexicographic string comparison in the source, maps to
19xx, else 20xx); `none` when the cell does not split into three parts. -/
def rowISO (cols : List String) (iDate : Nat) : Option String :=
  match jsSplit '/' (cols.getD iDate "") with
  | [mm, dd, yy] =>
    some ((if yy.data.length = 2 then
        (if strGtB yy "50" then "19" ++ yy else "20" ++ yy) else yy)
      ++ "-" ++ jsPadZero 2 mm ++ "-" ++ jsPadZero 2 dd)
  | _ => none

/-- One scan step per data row (the `for` loop body of `parseWSJCSV`).  A row
is skipped when it is too short or its date column is not a three-part
`mm/dd/yy[yy]`; a matching row with a missing or non-numeric close aborts the
whole scan with "not found" (the source's `return null`). -/
def scanRows (iDate iClose : Nat) (isoWanted : String) : List String → Option RowHit
  | [] => none
  | line :: rest =>
    let cols := rowCols line
    if cols.length < Nat.max iDate iClose + 1 then scanRows iDate iClose isoWanted rest
    else
      match rowISO cols iDate with
      | some iso =>
        if iso = isoWanted then
          (let close := cols.getD iClose ""
           if close = "" ∨ jsIsNaNNumber close then none else some ⟨iso, close⟩)
        else scanRows iDate iClose isoWanted rest
      | none => scanRows iDate iClose isoWanted rest

/-- Strip one trailing CR: the difference between splitting on `\n` and on
the source's `/\r?\n/`. -/
def stripCR (s : String) : String :=
  match s.data.reverse with
  | '\r' :: rest => ⟨rest.reverse⟩
  | _ => s

/-- Apply `stripCR` to every line that was followed by a newline (all but
the last piece of the split). -/
def stripCRs : List String → List String
  | [] => []
  | [x] => [x]
  | x :: rest => stripCR x :: stripCRs rest

/-- `parseWSJCSV(csv, isoWanted)` from `src/api/fx.js`. -/
def parseWSJCSV (csv isoWanted : String) : Option RowHit :=
  if csv = "" ∨ ¬ csv.data.contains '\n' then none
  else
    match stripCRs (jsSplit '\n' (jsTrim csv)) with
    | [] => none
    | header :: rows =>
      match ((jsSplit ',' header).map (fun c => jsLower (jsTrim c))).findIdx? (· == "date"),
            ((jsSplit ',' header).map (fun c => jsLower (jsTrim c))).findIdx? (· == "close") with
      | some iDate, some iClose => scanRows iDate iClose isoWanted rows
      | _, _ => none

theorem scanRows_some (iDate iClose : Nat) (isoWanted : String) (rows : List String)
    (r : RowHit) (h : scanRows iDate iClose isoWanted rows = some r) :
    r.date = isoWanted ∧ r.close ≠ "" ∧ jsIsNaNNumber r.close = false := by
  induction rows with
  | nil => simp [scanRows] at h
  | cons line rest ih =>
    rw [scanRows] at h
    dsimp only at h
    split at h
    · exact ih h
    · split at h
      · split at h
        · split at h
          · exact absurd h (by simp)
          · rename_i iso hiso hclose
            rw [Option.some.injEq] at h
            subst h
            rw [not_or] at hclose
            refine ⟨hiso, hclose.1, ?_⟩
            rw [← Bool.not_eq_true]
            exact hclose.2
        · exact ih h
      · exact ih h

theorem parseWSJCSV_some (csv isoWanted : String) (r : RowHit)
    (h : parseWSJCSV csv isoWanted = some r) :
    r.date = isoWanted ∧ r.close ≠ "" ∧ jsIsNaNNumber r.close = false := by
  unfold parseWSJCSV at h
  split at h
  · exact absurd h (by simp)
  · split at h
    · exact absurd h (by simp)
    · split at h
      · exact scanRows_some _ _ _ _ r h
      · exact absurd h (by simp)

/-- C3: the CSV row matcher locates Date/Close by case-insensitive header
name rather than fixed position, parses row dates as `MM/DD/YY` or
`MM/DD/YYYY` with the `>50 → 19xx`, else `20xx` pivot, takes the first row
whose normalized date equals the target, and treats a missing/non-numeric
close on the matching row as not-found.  All conjuncts evaluate the matcher
on concrete inputs exercising those cases. -/
theorem parseWSJCSV_behaviour :
    parseWSJCSV "Date,Open,High,Low,Close,Volume\n06/07/24,1.08,1.09,1.07,1.085,1000"
      "2024-06-07" = some ⟨"2024-06-07", "1.085"⟩ ∧
    parseWSJCSV "Close,Date\n1.085,06/07/24" "2024-06-07"
      = some ⟨"2024-06-07", "1.085"⟩ ∧
    parseWSJCSV " dAtE , cLoSe \n06/07/51,2.0" "1951-06-07"
      = some ⟨"1951-06-07", "2.0"⟩ ∧
    parseWSJCSV "Date,Close\n06/07/50,2.0" "2050-06-07"
      = some ⟨"2050-06-07", "2.0"⟩ ∧
    parseWSJCSV "Date,Close\n06/07/2024,2.0" "2024-06-07"
      = some ⟨"2024-06-07", "2.0"⟩ ∧
    parseWSJCSV "Date,Open,High,Low,Close,Volume\r\n06/07/24,1.08,1.09,1.07,N/A,1000"
      "2024-06-07" = none ∧
    parseWSJCSV "Date,Close\n06/07/24,1.0\n06/07/24,2.0" "2024-06-07"
      = some ⟨"2024-06-07", "1.0"⟩ := by
  refine ⟨?_, ?_, ?_, ?_, ?_, ?_, ?_⟩ <;> rfl

/-! ### The per-symbol fetcher `fetchWSJ` -/

/-- An upstream exchange: either an HTTP response (status plus CSV body) or
a thrown transport error with its stringified message. -/
inductive NetResp where
  | http (status : Nat) (body : String)
  | netThrow (msg : String)
  deriving DecidableEq, Repr

/-- The network, as an oracle from URLs to outcomes. -/
def NetOracle : Type := String → NetResp

/-- One per-symbol result entry, the JS object literals of `fetchWSJ`
(absent fields are `none`). -/
structure SymbolResult where
  symbol : String
  status : String
  close : Option String := none
  date : Option String := none
  error : Option String := none
  source_url : Option String := none
  deriving DecidableEq, Repr

/-- `encodeURIComponent` on one character: unreserved marks stay, everything
else is percent-encoded per UTF-8 byte. -/
def hexDigitCh (n : Nat) : Char :=
  if n < 10 then Char.ofNat (48 + n) else Char.ofNat (55 + n)

def encCharL (c : Char) : List Char :=
  if c.isAlphanum || c == '-' || c == '_' || c == '.' || c == '!' || c == '~'
      || c == '*' || c == Char.ofNat 39 || c == '(' || c == ')' then [c]
  else
    (String.utf8EncodeChar c).flatMap
      (fun b => ['%', hexDigitCh (b.toNat / 16), hexDigitCh (b.toNat % 16)])

def encodeURIComponent (s : String) : String := ⟨s.data.flatMap encCharL⟩

/-- The WSJ historical-prices CSV download URL for a symbol and an
`MM/DD/YYYY` date. -/
def wsjUrl (symbol mdy : String) : String :=
  "https://www.wsj.com/market-data/quotes/FX/" ++ symbol ++
    "/historical-prices/download?startDate=" ++ encodeURIComponent mdy ++
    "&endDate=" ++ encodeURIComponent mdy ++ "&num_rows=50"

/-- `/^[A-Z]{6}$/.test(symbol)`. -/
def sixUpper (s : String) : Bool :=
  s.data.length == 6 && s.data.all (fun c => 65 ≤ c.toNat && c.toNat ≤ 90)

/-- `symbol.endsWith("USD")`. -/
def endsUSD (s : String) : Bool := s.data.reverse.take 3 == ['D', 'S', 'U']

/-- `fetchWSJ(symbolRaw, mdy, iso)` from `src/api/fx.js`, with the network
as an oracle.  `resp.ok` is `200 <= status < 300`. -/
def fetchWSJ (net : NetOracle) (symbolRaw mdy iso : String) : SymbolResult :=
  let symbol := normSym symbolRaw
  if ¬ sixUpper symbol then
    { symbol := symbol, status := "error", error := some "invalid symbol" }
  else if ¬ endsUSD symbol then
    { symbol := symbol, status := "error",
      error := some "not XXXUSD (reciprocals disabled)" }
  else
    let url := wsjUrl symbol mdy
    match net url with
    | NetResp.netThrow msg =>
      { symbol := symbol, status := "error", error := some msg,
        source_url := some url }
    | NetResp.http status body =>
      if status < 200 ∨ 300 ≤ status then
        { symbol := symbol, status := "error",
          error := some ("HTTP " ++ toString status), source_url := some url }
      else
        match parseWSJCSV body iso with
        | none =>
          { symbol := symbol, status := "error", error := some "row not found",
            source_url := some url }
        | some r =>
          { symbol := symbol, status := "ok", close := some r.close,
            date := some r.date, source_url := some url }

theorem fetchWSJ_symbol (net : NetOracle) (s mdy iso : String) :
    (fetchWSJ net s mdy iso).symbol = normSym s := by
  unfold fetchWSJ
  dsimp only
  split
  · rfl
  · split
    · rfl
    · split
      · rfl
      · split
        · rfl
        · split <;> rfl

theorem fetchWSJ_norm (net : NetOracle) (s mdy iso : String) :
    fetchWSJ net (normSym s) mdy iso = fetchWSJ net s mdy iso := by
  unfold fetchWSJ
  rw [normSym_idem]

/-- A stub upstream that always answers 200 with a one-row CSV for
2024-06-10. -/
def fixedNet200 : NetOracle := fun _ => NetResp.http 200 "Date,Close\n06/10/2024,1.08"

/-- A stub upstream that always answers HTTP 403. -/
def fixedNet403 : NetOracle := fun _ => NetResp.http 403 ""

/-- C4: symbol validation in the fetcher.  After uppercasing and trimming,
a non-6-letter symbol errors with the invalid-symbol message, a 6-letter
symbol not ending in USD errors with the reciprocals-disabled message,
`"eurusd"` normalizes to `"EURUSD"` and behaves identically to it, and
`"EURUSD"` is accepted (fetches and succeeds against a stub upstream). -/
theorem fetchWSJ_validation :
    (∀ (net : NetOracle) (mdy iso : String),
      fetchWSJ net "EU" mdy iso =
        { symbol := "EU", status := "error", error := some "invalid symbol" }) ∧
    (∀ (net : NetOracle) (mdy iso : String),
      fetchWSJ net "USDEUR" mdy iso =
        { symbol := "USDEUR", status := "error",
          error := some "not XXXUSD (reciprocals disabled)" }) ∧
    (∀ (net : NetOracle) (mdy iso : String),
      fetchWSJ net "eurusd" mdy iso = fetchWSJ net "EURUSD" mdy iso) ∧
    (fetchWSJ fixedNet200 "EURUSD" "06/10/2024" "2024-06-10").status = "ok" ∧
    (fetchWSJ fixedNet200 "eurusd" "06/10/2024" "2024-06-10").symbol = "EURUSD" := by
  exact ⟨fun net mdy iso => rfl, fun net mdy iso => rfl, fun net mdy iso => rfl,
    rfl, rfl⟩

/-- Witness for `fetchWSJ_validation`, instantiated at the stub upstream. -/
theorem fetchWSJ_validation_witness :
    fetchWSJ fixedNet200 "EU" "06/10/2024" "2024-06-10" =
      { symbol := "EU", status := "error", error := some "invalid symbol" } :=
  fetchWSJ_validation.1 fixedNet200 "06/10/2024" "2024-06-10"

/-- C10: every `ok` result carries exactly the ISO date that was queried
(the matcher only accepts a row whose normalized date equals the target) and
a non-empty close string that parses as a number. -/
theorem fetchWSJ_ok_shape (net : NetOracle) (s mdy iso : String)
    (h : (fetchWSJ net s mdy iso).status = "ok") :
    (fetchWSJ net s mdy iso).date = some iso ∧
    ∃ c, (fetchWSJ net s mdy iso).close = some c ∧ c ≠ "" ∧
      jsIsNaNNumber c = false := by
  revert h
  unfold fetchWSJ
  dsimp only
  split
  · intro h; simp at h
  · split
    · intro h; simp at h
    · split
      · intro h; simp at h
      · split
        · intro h; simp at h
        · split
          · intro h; simp at h
          · rename_i r hr
            intro _
            have hp := parseWSJCSV_some _ _ r hr
            exact ⟨by rw [hp.1], r.close, rfl, hp.2.1, hp.2.2⟩

/-- Witness for `fetchWSJ_ok_shape` at the stub upstream. -/
theorem fetchWSJ_ok_shape_witness :
    (fetchWSJ fixedNet200 "EURUSD" "06/10/2024" "2024-06-10").date = some "2024-06-10" ∧
    ∃ c, (fetchWSJ fixedNet200 "EURUSD" "06/10/2024" "2024-06-10").close = some c ∧
      c ≠ "" ∧ jsIsNaNNumber c = false :=
  fetchWSJ_ok_shape fixedNet200 "EURUSD" "06/10/2024" "2024-06-10" rfl

/-! ### The exported request handler -/

inductive Method where
  | get
  | post
  | other (name : String)
  deriving DecidableEq, Repr

/-- An incoming request: the query fields a GET carries and the body fields
a POST carries (absent values are `none`). -/
structure Req where
  method : Method
  qdate : Option String := none
  qcoverage : Option String := none
  qsymbols : Option String := none
  bdate : Option String := none
  bcoverage : Option String := none
  bsymbols : Option (List String) := none

/-- The `DEFAULT_SEED` master list. -/
def DEFAULT_SEED : List String :=
  ["EURUSD", "GBPUSD", "AUDUSD", "NZDUSD", "JPYUSD", "CADUSD", "CHFUSD",
   "SEKUSD", "NOKUSD", "DKKUSD", "MXNUSD", "BRLUSD", "CNYUSD", "KRWUSD",
   "INRUSD", "ZARUSD", "TRYUSD", "PLNUSD", "HUFUSD", "CZKUSD", "ILSUSD",
   "AEDUSD", "SARUSD", "CLPUSD", "COPUSD", "PENUSD", "ARSUSD", "THBUSD",
   "PHPUSD", "MYRUSD", "IDRUSD", "TWDUSD", "SGDUSD", "HKDUSD", "RONUSD",
   "BGNUSD", "QARUSD", "MADUSD", "AOAUSD", "VNDUSD", "GHSUSD", "NGNUSD"]

/-- What the `symbols` variable holds after `COVERAGE[coverage] ||
COVERAGE.full`: an actual array, or a non-array object inherited through
the prototype chain. -/
inductive CovValue where
  | arr (l : List String)
  | inherited
  deriving DecidableEq, Repr

/-- The JS bracket lookup `COVERAGE[coverage] || COVERAGE.full`.  Bracket
lookup on an object literal walks the prototype chain: an own key
(`majors`/`extended`/`full`) yields its array; `"constructor"` and
`"__proto__"` — the only `Object.prototype` keys that survive
`.toLowerCase()` — yield an inherited non-array object, which is truthy,
so `|| COVERAGE.full` does not replace it (and `symbols.map` later throws);
any other name yields `undefined` and falls back to the full list. -/
def coverageLookup (cov : String) : CovValue :=
  if cov = "majors" then
    CovValue.arr
      ["EURUSD", "GBPUSD", "JPYUSD", "AUDUSD", "NZDUSD", "CADUSD", "CHFUSD",
       "CNYUSD", "SEKUSD", "NOKUSD"]
  else if cov = "extended" then CovValue.arr (DEFAULT_SEED.take 30)
  else if cov = "full" then CovValue.arr DEFAULT_SEED
  else if cov = "constructor" ∨ cov = "__proto__" then CovValue.inherited
  else CovValue.arr DEFAULT_SEED

/-- `parseSymbolList` from `src/api/fx.js`: `null` for a missing or empty
parameter, else split on commas, trim, drop empties. -/
def parseSymbolList (s : Option String) : Option (List String) :=
  match s with
  | none => none
  | some str =>
    if str = "" then none
    else some (((jsSplit ',' str).map jsTrim).filter (fun v => ¬ v = ""))

/-- `clean` from `src/api/fx.js`. -/
def clean (arr : List String) : List String :=
  (arr.map jsTrim).filter (fun v => ¬ v = "")

/-- `(… || "full").toLowerCase()`. -/
def covOf (c : Option String) : String :=
  jsLower (if c.getD "" = "" then "full" else c.getD "")

/-- `!symbols || symbols.length === 0` falls back to the coverage lookup
(an inherited non-array has no `.length === 0`, so it survives this test
too). -/
def chooseSymbols (explicit : Option (List String)) (cov : String) : CovValue :=
  match explicit with
  | some l => if l.isEmpty then coverageLookup cov else CovValue.arr l
  | none => coverageLookup cov

/-- `^\d{4}-\d{2}-\d{2}$`. -/
def isoShapeB (s : String) : Bool :=
  match s.data with
  | [y1, y2, y3, y4, h1, m1, m2, h2, d1, d2] =>
    y1.isDigit && y2.isDigit && y3.isDigit && y4.isDigit && h1 == '-' &&
      m1.isDigit && m2.isDigit && h2 == '-' && d1.isDigit && d2.isDigit
  | _ => false

def digitVal (c : Char) : Int := Int.ofNat (c.toNat - 48)

/-- Read the calendar components out of a shape-valid `YYYY-MM-DD` string
(what `new Date(iso + "T00:00:00-04:00")` parses). -/
def parseISO (s : String) : Option CalDate :=
  match s.data with
  | [y1, y2, y3, y4, _, m1, m2, _, d1, d2] =>
    some ⟨1000 * digitVal y1 + 100 * digitVal y2 + 10 * digitVal y3 + digitVal y4,
      10 * digitVal m1 + digitVal m2, 10 * digitVal d1 + digitVal d2⟩
  | _ => none

/-- Digits of `n`, via `Nat.toDigits`. -/
def natStr (n : Nat) : String := ⟨Nat.toDigits 10 n⟩

def intStr (n : Int) : String :=
  if n < 0 then "-" ++ natStr n.natAbs else natStr n.natAbs

/-- The `YYYY-MM-DD` rendering `toISOString().slice(0, 10)` produces (for
the 4-digit-year range the request format can express). -/
def formatISO (t : CalDate) : String :=
  jsPadZero 4 (intStr t.year) ++ "-" ++ jsPadZero 2 (intStr t.month) ++ "-" ++
    jsPadZero 2 (intStr t.day)

/-- `toMMDDYYYY` from `src/api/fx.js` (the source re-parses the resolved ISO
string through `Date`; on a valid resolved date that recovers exactly the
resolved calendar components used here). -/
def toMMDDYYYY (t : CalDate) : String :=
  jsPadZero 2 (intStr t.month) ++ "/" ++ jsPadZero 2 (intStr t.day) ++ "/" ++
    intStr t.year

/-- Outcome of the input-parsing phase: an error response (status code and
message) or the date string plus the resolved `symbols` value (an array, or
the inherited non-array the prototype-chain coverage lookup can yield). -/
def parseRequest (req : Req) : Except (Nat × String) (String × CovValue) :=
  match req.method with
  | Method.other _ => Except.error (405, "Use GET or POST")
  | Method.get =>
    let date := req.qdate.getD ""
    let symbols := chooseSymbols (parseSymbolList req.qsymbols) (covOf req.qcoverage)
    if isoShapeB date then Except.ok (date, symbols)
    else Except.error (400, "date must be YYYY-MM-DD")
  | Method.post =>
    let date := req.bdate.getD ""
    let symbols := chooseSymbols (Option.map clean req.bsymbols) (covOf req.bcoverage)
    if isoShapeB date then Except.ok (date, symbols)
    else Except.error (400, "date must be YYYY-MM-DD")

/-- Resolve the shape-valid date string: parse its components and roll a
weekend back.  A string that is not a real calendar date makes the JS `Date`
invalid and `toISOString` throw, which the top-level catch reports as a 500
(`RangeError: Invalid time value`). -/
def resolveDate (dateStr : String) : Except (Nat × String) CalDate :=
  match parseISO dateStr with
  | some t =>
    if validDate t then Except.ok (priorBizIfWeekend t)
    else Except.error (500, "Invalid time value")
  | none => Except.error (500, "Invalid time value")

/-- The handler's 200-response payload. -/
structure HandlerOut where
  code : Nat
  resolvedDate : Option String := none
  total : Option Nat := none
  okCount : Option Nat := none
  failCount : Option Nat := none
  items : Option (List SymbolResult) := none
  error : Option String := none
  deriving DecidableEq, Repr

/-- `results.sort((a, b) => a.symbol.localeCompare(b.symbol))`, with the
comparator modelled in code-point order (faithful on the
letters-and-digits alphabet, see `strLeB`). -/
def sortItems (l : List SymbolResult) : List SymbolResult :=
  l.mergeSort (fun a b => strLeB a.symbol b.symbol)

/-- The queue the orchestrator fans out over and the per-symbol fetches in
queue order (the completion order is a permutation of this list). -/
def fetchesFor (net : NetOracle) (resolved : CalDate) (symbols : List String) :
    List SymbolResult :=
  (symbols.map normSym).map
    (fun s => fetchWSJ net s (toMMDDYYYY resolved) (formatISO resolved))

/-- The full handler `module.exports` of `src/api/fx.js`.  `results` is the
list of per-symbol outcomes in completion order; the theorems below
constrain it to a permutation of `fetchesFor …` (any interleaving the
worker pool can produce).  On the validation paths `results` and `net` are
unused — no fetch happens.  When the coverage lookup produced an inherited
non-array, `(symbols || []).map(...)` throws `TypeError` before any fetch
and the top-level catch answers 500. -/
def handler (req : Req) (net : NetOracle) (results : List SymbolResult) :
    HandlerOut :=
  match parseRequest req with
  | Except.error (code, msg) => { code := code, error := some msg }
  | Except.ok (dateStr, symsV) =>
    match resolveDate dateStr with
    | Except.error (code, msg) => { code := code, error := some msg }
    | Except.ok resolved =>
      match symsV with
      | CovValue.inherited =>
        { code := 500, error := some "symbols.map is not a function" }
      | CovValue.arr symbols =>
        { code := 200
          resolvedDate := some (formatISO resolved)
          total := some symbols.length
          okCount := some (results.countP (fun r => r.status == "ok"))
          failCount := some (results.countP (fun r => r.status != "ok"))
          items := some (sortItems results) }

/-- The upstream URLs the handler's fan-out would request: none on the
validation-failure paths, and one per validation-passing symbol otherwise. -/
def handlerAttempts (req : Req) : List String :=
  match parseRequest req with
  | Except.error _ => []
  | Except.ok (dateStr, symsV) =>
    match resolveDate dateStr with
    | Except.error _ => []
    | Except.ok resolved =>
      match symsV with
      | CovValue.inherited => []
      | CovValue.arr symbols =>
        (symbols.map normSym).filterMap
          (fun s => if sixUpper s ∧ endsUSD s then some (wsjUrl s (toMMDDYYYY resolved)) else none)

theorem countP_ok_add_fail (l : List SymbolResult) :
    l.countP (fun r => r.status == "ok") + l.countP (fun r => r.status != "ok")
      = l.length := by
  induction l with
  | nil => rfl
  | cons x xs ih =>
    cases h : x.status == "ok" <;>
      simp [List.countP_cons, h, bne] at ih ⊢ <;> omega

theorem strEq_of_data {a b : String} (h : a.data = b.data) : a = b := by
  cases a
  cases b
  exact congrArg String.mk h

theorem strLeB_total (a b : String) : (strLeB a b || strLeB b a) = true := by
  unfold strLeB
  by_cases h : charListLtB b.data a.data = true
  · have := charListLtB_asymm _ _ h
    simp [this]
  · simp [Bool.not_eq_true] at h
    simp [h]

theorem strLeB_trans (a b c : String) (h1 : strLeB a b = true)
    (h2 : strLeB b c = true) : strLeB a c = true := by
  unfold strLeB at h1 h2 ⊢
  simp only [Bool.not_eq_true'] at h1 h2 ⊢
  by_cases hca : charListLtB c.data a.data = true
  · by_cases hbc : charListLtB b.data c.data = true
    · have := charListLtB_trans _ _ _ hbc hca
      rw [this] at h1
      exact absurd h1 (by simp)
    · simp only [Bool.not_eq_true] at hbc
      have hbceq := charListLtB_total_eq _ _ hbc h2
      rw [← hbceq] at hca
      rw [hca] at h1
      exact absurd h1 (by simp)
  · simpa using hca

theorem strLeB_antisymm (a b : String) (h1 : strLeB a b = true)
    (h2 : strLeB b a = true) : a = b := by
  unfold strLeB at h1 h2
  simp only [Bool.not_eq_true'] at h1 h2
  exact strEq_of_data (charListLtB_total_eq _ _ h2 h1)

/-- The by-symbol order on results used by the final sort. -/
def resLe (a b : SymbolResult) : Bool := strLeB a.symbol b.symbol

theorem sortItems_sorted (l : List SymbolResult) :
    List.Pairwise (fun a b => strLeB a.symbol b.symbol = true) (sortItems l) := by
  have h := List.sorted_mergeSort
    (fun a b c => by
      simpa using fun h1 h2 => strLeB_trans a.symbol b.symbol c.symbol h1 h2)
    (fun a b => strLeB_total a.symbol b.symbol) l
  exact h.imp (fun hab => by simpa using hab)

theorem sortItems_perm (l : List SymbolResult) : (sortItems l).Perm l :=
  List.mergeSort_perm l _

/-- Two sorted lists that are permutations of each other and whose elements
are all determined by their symbol key are equal. -/
theorem sorted_perm_key_eq (F : String → SymbolResult) :
    ∀ (l1 l2 : List SymbolResult), l1.Perm l2 →
    List.Pairwise (fun a b => strLeB a.symbol b.symbol = true) l1 →
    List.Pairwise (fun a b => strLeB a.symbol b.symbol = true) l2 →
    (∀ r ∈ l1, r = F r.symbol) → l1 = l2 := by
  intro l1
  induction l1 with
  | nil =>
    intro l2 hp _ _ _
    exact (hp.symm.eq_nil).symm
  | cons a t1 ih =>
    intro l2 hp hs1 hs2 hkey
    cases l2 with
    | nil => exact absurd hp.length_eq (by simp)
    | cons b t2 =>
      have hab : a = b := by
        have hmem_a : a ∈ b :: t2 := hp.mem_iff.1 (List.mem_cons_self a t1)
        have hmem_b : b ∈ a :: t1 := hp.mem_iff.2 (List.mem_cons_self b t2)
        rcases List.mem_cons.1 hmem_a with h | h
        · exact h
        · rcases List.mem_cons.1 hmem_b with h' | h'
          · exact h'.symm
          · have hba : strLeB b.symbol a.symbol = true :=
              (List.pairwise_cons.1 hs2).1 a h
            have hab' : strLeB a.symbol b.symbol = true :=
              (List.pairwise_cons.1 hs1).1 b h'
            have hsym : a.symbol = b.symbol := strLeB_antisymm _ _ hab' hba
            have ha := hkey a (List.mem_cons_self a t1)
            have hb := hkey b hmem_b
            rw [ha, hb, hsym]
      subst hab
      have hp' : t1.Perm t2 := hp.cons_inv
      rw [ih t2 hp' (List.pairwise_cons.1 hs1).2 (List.pairwise_cons.1 hs2).2
        (fun r hr => hkey r (List.mem_cons_of_mem a hr))]

theorem fetchesFor_key (net : NetOracle) (resolved : CalDate)
    (symbols : List String) (r : SymbolResult)
    (hr : r ∈ fetchesFor net resolved symbols) :
    r = fetchWSJ net r.symbol (toMMDDYYYY resolved) (formatISO resolved) := by
  unfold fetchesFor at hr
  rw [List.map_map] at hr
  obtain ⟨s, _, rfl⟩ := List.mem_map.1 hr
  rw [Function.comp_apply, fetchWSJ_symbol, normSym_idem, fetchWSJ_norm]

theorem fetchesFor_symbols (net : NetOracle) (resolved : CalDate)
    (symbols : List String) :
    (fetchesFor net resolved symbols).map (fun r => r.symbol)
      = symbols.map normSym := by
  unfold fetchesFor
  rw [List.map_map, List.map_map]
  apply List.map_congr_left
  intro s _
  simp only [Function.comp_apply]
  rw [fetchWSJ_symbol, normSym_idem]

/-- C1 (amended): for every valid request (shape-valid calendar date, GET
or POST) whose `symbols` resolved to an actual array — which excludes the
no-symbols requests whose coverage name hits an inherited
`Object.prototype` key (`constructor`/`__proto__`), where the real handler
throws at `symbols.map` and answers 500 (see
`handler_batch_invariant_cex`) — and any completion order of the fetches,
the 200 response satisfies `total = ok + fail = |items|`, and the multiset
of item symbols is exactly the multiset of requested symbols (normalized) —
duplicates pass through, one item each. -/
theorem handler_batch_invariant (req : Req) (net : NetOracle)
    (dateStr : String) (symbols : List String) (resolved : CalDate)
    (results : List SymbolResult)
    (hreq : parseRequest req = Except.ok (dateStr, CovValue.arr symbols))
    (hres : resolveDate dateStr = Except.ok resolved)
    (hperm : results.Perm (fetchesFor net resolved symbols)) :
    (handler req net results).code = 200 ∧
    (handler req net results).total = some symbols.length ∧
    (handler req net results).okCount = some (results.countP (fun r => r.status == "ok")) ∧
    (handler req net results).failCount = some (results.countP (fun r => r.status != "ok")) ∧
    results.countP (fun r => r.status == "ok") + results.countP (fun r => r.status != "ok")
      = symbols.length ∧
    ∃ items, (handler req net results).items = some items ∧
      items.length = symbols.length ∧
      (items.map (fun r => r.symbol)).Perm (symbols.map normSym) := by
  have hlen : results.length = symbols.length := by
    rw [hperm.length_eq]
    unfold fetchesFor
    simp
  have hh : handler req net results =
      { code := 200
        resolvedDate := some (formatISO resolved)
        total := some symbols.length
        okCount := some (results.countP (fun r => r.status == "ok"))
        failCount := some (results.countP (fun r => r.status != "ok"))
        items := some (sortItems results) } := by
    unfold handler
    rw [hreq]
    dsimp only
    rw [hres]
  refine ⟨by rw [hh], by rw [hh], by rw [hh], by rw [hh], ?_,
    sortItems results, by rw [hh], ?_, ?_⟩
  · rw [countP_ok_add_fail results]
    exact hlen
  · unfold sortItems
    rw [List.length_mergeSort]
    exact hlen
  · have h2 := (sortItems_perm results).trans hperm
    have h3 := h2.map (fun r => r.symbol)
    rw [fetchesFor_symbols] at h3
    exact h3

/-- A concrete valid GET request used by the witnesses. -/
def reqGET : Req :=
  { method := Method.get, qdate := some "2024-06-10",
    qsymbols := some "EURUSD,GBPUSD" }

/-- Witness for `handler_batch_invariant`: the concrete GET request against
the stub upstream, with the fetches completing in queue order. -/
theorem handler_batch_invariant_witness :
    (handler reqGET fixedNet200
        (fetchesFor fixedNet200 ⟨2024, 6, 10⟩ ["EURUSD", "GBPUSD"])).code = 200 ∧
    (handler reqGET fixedNet200
        (fetchesFor fixedNet200 ⟨2024, 6, 10⟩ ["EURUSD", "GBPUSD"])).total = some 2 :=
  have h := handler_batch_invariant reqGET fixedNet200 "2024-06-10"
    ["EURUSD", "GBPUSD"] ⟨2024, 6, 10⟩
    (fetchesFor fixedNet200 ⟨2024, 6, 10⟩ ["EURUSD", "GBPUSD"])
    (by rfl) (by rfl) (List.Perm.refl _)
  ⟨h.1, h.2.1⟩

/-- C7 (amended): for every valid request whose `symbols` resolved to an
actual array (not the inherited `Object.prototype` coverage values, where
the real handler answers 500 with no items — see
`handler_items_sorted_cex`) and all of whose normalized symbols consist of
ASCII uppercase letters and digits — the alphabet on which the source's
default-locale `localeCompare` comparator coincides with code-point
lexicographic order; on punctuated (invalid) symbols ICU collation orders
punctuation before letters and the program's order diverges from
code-point order — and for every completion order of the concurrent
fetches, `items` is sorted ascending (lexicographically) by symbol, and the
sorted list is the same for every completion order (it equals the sort of
the queue-order fetch list), so the output ordering is independent of
upstream latency. -/
theorem handler_items_sorted (req : Req) (net : NetOracle)
    (dateStr : String) (symbols : List String) (resolved : CalDate)
    (results : List SymbolResult)
    (hreq : parseRequest req = Except.ok (dateStr, CovValue.arr symbols))
    (hres : resolveDate dateStr = Except.ok resolved)
    (halpha : ∀ s ∈ symbols, (normSym s).data.all
      (fun c => (65 ≤ c.toNat ∧ c.toNat ≤ 90) ∨ (48 ≤ c.toNat ∧ c.toNat ≤ 57)) = true)
    (hperm : results.Perm (fetchesFor net resolved symbols)) :
    ∃ items, (handler req net results).items = some items ∧
      List.Pairwise (fun a b => strLeB a.symbol b.symbol = true) items ∧
      items = sortItems (fetchesFor net resolved symbols) := by
  have hh : (handler req net results).items = some (sortItems results) := by
    unfold handler
    rw [hreq]
    dsimp only
    rw [hres]
  refine ⟨sortItems results, hh, sortItems_sorted results, ?_⟩
  apply sorted_perm_key_eq
    (fun sym => fetchWSJ net sym (toMMDDYYYY resolved) (formatISO resolved))
  · exact ((sortItems_perm results).trans hperm).trans
      (sortItems_perm (fetchesFor net resolved symbols)).symm
  · exact sortItems_sorted results
  · exact sortItems_sorted (fetchesFor net resolved symbols)
  · intro r hr
    exact fetchesFor_key net resolved symbols r
      (hperm.mem_iff.1 ((sortItems_perm results).mem_iff.1 hr))

/-- Witness for `handler_items_sorted`: the concrete GET request with the
two fetches completing in reversed order. -/
theorem handler_items_sorted_witness :
    ∃ items, (handler reqGET fixedNet200
        (fetchesFor fixedNet200 ⟨2024, 6, 10⟩ ["EURUSD", "GBPUSD"]).reverse).items
        = some items ∧
      List.Pairwise (fun a b => strLeB a.symbol b.symbol = true) items ∧
      items = sortItems (fetchesFor fixedNet200 ⟨2024, 6, 10⟩ ["EURUSD", "GBPUSD"]) :=
  handler_items_sorted reqGET fixedNet200 "2024-06-10" ["EURUSD", "GBPUSD"]
    ⟨2024, 6, 10⟩ (fetchesFor fixedNet200 ⟨2024, 6, 10⟩ ["EURUSD", "GBPUSD"]).reverse
    (by rfl) (by rfl) (by decide) (List.reverse_perm _)

/-- The date string the handler validates: the query date for GET, the body
date for POST (missing becomes the empty string, which fails the shape
test, as `!date` does in the source). -/
def reqDate (req : Req) : String :=
  match req.method with
  | Method.post => req.bdate.getD ""
  | _ => req.qdate.getD ""

/-- C6: request validation is fail-fast and atomic.  A GET/POST whose date
is missing or not `YYYY-MM-DD` is answered 400 with the validation message,
no upstream URL is attempted, and the response does not depend on any fetch
outcome; a request with any other method is answered 405 likewise without
fetching. -/
theorem handler_fail_fast :
    (∀ req : Req, (req.method = Method.get ∨ req.method = Method.post) →
      isoShapeB (reqDate req) = false →
      parseRequest req = Except.error (400, "date must be YYYY-MM-DD") ∧
      handlerAttempts req = [] ∧
      ∀ (net : NetOracle) (results : List SymbolResult),
        handler req net results =
          { code := 400, error := some "date must be YYYY-MM-DD" }) ∧
    (∀ (req : Req) (m : String), req.method = Method.other m →
      parseRequest req = Except.error (405, "Use GET or POST") ∧
      handlerAttempts req = [] ∧
      ∀ (net : NetOracle) (results : List SymbolResult),
        handler req net results =
          { code := 405, error := some "Use GET or POST" }) := by
  constructor
  · intro req hm hd
    have hp : parseRequest req = Except.error (400, "date must be YYYY-MM-DD") := by
      rcases hm with h | h <;>
        · unfold parseRequest
          rw [h]
          dsimp only
          rw [if_neg]
          unfold reqDate at hd
          rw [h] at hd
          simp [hd]
    refine ⟨hp, ?_, ?_⟩
    · unfold handlerAttempts
      rw [hp]
    · intro net results
      unfold handler
      rw [hp]
  · intro req m hm
    have hp : parseRequest req = Except.error (405, "Use GET or POST") := by
      unfold parseRequest
      rw [hm]
    refine ⟨hp, ?_, ?_⟩
    · unfold handlerAttempts
      rw [hp]
    · intro net results
      unfold handler
      rw [hp]

/-- Witness for `handler_fail_fast`: a GET whose date is `06/07/2024`. -/
theorem handler_fail_fast_witness :
    parseRequest { method := Method.get, qdate := some "06/07/2024" }
      = Except.error (400, "date must be YYYY-MM-DD") ∧
    handlerAttempts { method := Method.get, qdate := some "06/07/2024" } = [] :=
  have h := handler_fail_fast.1 { method := Method.get, qdate := some "06/07/2024" }
    (Or.inl rfl) (by rfl)
  ⟨h.1, h.2.1⟩

/-- C5 (amended): per-symbol errors are data, not exceptions.  Every fetch
outcome is a tagged `ok`/`error` record, `error` results always carry a
message, `source_url` is present whenever validation passed (a request was
attempted), an upstream 403 yields exactly the `HTTP 403` error entry, one
symbol's result depends only on the upstream exchange at its own URL (so no
symbol's failure can change another's result), and a valid request whose
`symbols` resolved to an actual array (not the inherited `Object.prototype`
coverage values, where the handler 500s before any fetch — see
`fetch_errors_are_data_cex`) is still answered 200 with one item per symbol
whatever the upstream does. -/
theorem fetch_errors_are_data :
    (∀ (net : NetOracle) (s mdy iso : String),
      (fetchWSJ net s mdy iso).status = "ok" ∨
      ((fetchWSJ net s mdy iso).status = "error" ∧
        (fetchWSJ net s mdy iso).error.isSome = true)) ∧
    (∀ (net : NetOracle) (s mdy iso : String),
      sixUpper (normSym s) = true → endsUSD (normSym s) = true →
      (fetchWSJ net s mdy iso).source_url = some (wsjUrl (normSym s) mdy)) ∧
    fetchWSJ fixedNet403 "EURUSD" "06/10/2024" "2024-06-10" =
      { symbol := "EURUSD", status := "error", error := some "HTTP 403",
        source_url := some (wsjUrl "EURUSD" "06/10/2024") } ∧
    (∀ (net1 net2 : NetOracle) (s mdy iso : String),
      net1 (wsjUrl (normSym s) mdy) = net2 (wsjUrl (normSym s) mdy) →
      fetchWSJ net1 s mdy iso = fetchWSJ net2 s mdy iso) ∧
    (∀ (req : Req) (net : NetOracle) (dateStr : String) (symbols : List String)
        (resolved : CalDate) (results : List SymbolResult),
      parseRequest req = Except.ok (dateStr, CovValue.arr symbols) →
      resolveDate dateStr = Except.ok resolved →
      results.Perm (fetchesFor net resolved symbols) →
      (handler req net results).code = 200 ∧
      ∃ items, (handler req net results).items = some items ∧
        items.length = symbols.length) := by
  refine ⟨?_, ?_, by rfl, ?_, ?_⟩
  · intro net s mdy iso
    unfold fetchWSJ
    dsimp only
    split
    · right; exact ⟨rfl, rfl⟩
    · split
      · right; exact ⟨rfl, rfl⟩
      · split
        · right; exact ⟨rfl, rfl⟩
        · split
          · right; exact ⟨rfl, rfl⟩
          · split
            · right; exact ⟨rfl, rfl⟩
            · left; rfl
  · intro net s mdy iso h6 hu
    unfold fetchWSJ
    dsimp only
    rw [if_neg (by simp [h6]), if_neg (by simp [hu])]
    split
    · rfl
    · split
      · rfl
      · split <;> rfl
  · intro net1 net2 s mdy iso h
    unfold fetchWSJ
    dsimp only
    split
    · rfl
    · split
      · rfl
      · rw [h]
  · intro req net dateStr symbols resolved results hreq hres hperm
    have hh : handler req net results =
        { code := 200
          resolvedDate := some (formatISO resolved)
          total := some symbols.length
          okCount := some (results.countP (fun r => r.status == "ok"))
          failCount := some (results.countP (fun r => r.status != "ok"))
          items := some (sortItems results) } := by
      unfold handler
      rw [hreq]
      dsimp only
      rw [hres]
    rw [hh]
    refine ⟨rfl, sortItems results, rfl, ?_⟩
    unfold sortItems
    rw [List.length_mergeSort, hperm.length_eq]
    unfold fetchesFor
    simp

/-- Witness for `fetch_errors_are_data`: the accepted symbol `EURUSD`
against the 403 upstream carries its source URL. -/
theorem fetch_errors_are_data_witness :
    (fetchWSJ fixedNet403 "EURUSD" "06/10/2024" "2024-06-10").source_url
      = some (wsjUrl (normSym "EURUSD") "06/10/2024") :=
  fetch_errors_are_data.2.1 fixedNet403 "EURUSD" "06/10/2024" "2024-06-10"
    (by rfl) (by rfl)

/-! ### The bounded worker pool (orchestrator) -/

/-- `const CONCURRENCY = 6`. -/
def CONCURRENCY : Nat := 6

/-- The orchestrator's state: the pending `queue`, the in-flight `running`
set (identified by symbol), and the collected `results`. -/
structure PoolState where
  pending : List String
  running : List String
  results : List SymbolResult

/-- One observable step of the fan-out loop, parameterised by the fetch
function.  `spawn` starts the next queued symbol, and the source's inner
`while` only runs it when `running.size < CONCURRENCY`; `complete` retires
any in-flight fetch, pushing its outcome (the source interleaves these at
`await Promise.race(running)`). -/
inductive PoolStep (F : String → SymbolResult) : PoolState → PoolState → Prop
  | spawn (x : String) (rest active : List String) (done : List SymbolResult)
      (h : active.length < CONCURRENCY) :
      PoolStep F ⟨x :: rest, active, done⟩ ⟨rest, x :: active, done⟩
  | complete (x : String) (pending active : List String)
      (done : List SymbolResult) (h : x ∈ active) :
      PoolStep F ⟨pending, active, done⟩ ⟨pending, active.erase x, F x :: done⟩

/-- The loop starts with the whole queue pending and nothing in flight. -/
def initPool (queue : List String) : PoolState := ⟨queue, [], []⟩

/-- Twenty symbols, for the spec's instrumented-upstream scenario. -/
def queue20 : List String := DEFAULT_SEED.take 20

/-- C8: the concurrency cap.  In every state the fan-out loop can reach —
whatever the queue, in particular the 20-symbol one — at most `6` fetches
are in flight: `spawn` refills only while the active set has fewer than 6
members, and a further refill needs a `complete` first. -/
theorem pool_concurrency_cap (F : String → SymbolResult) (queue : List String)
    (s : PoolState) (h : Relation.ReflTransGen (PoolStep F) (initPool queue) s) :
    s.running.length ≤ 6 := by
  induction h with
  | refl => simp [initPool]
  | tail hsteps hstep ih =>
    cases hstep with
    | spawn x rest active done hlt =>
      unfold CONCURRENCY at hlt
      simp only [List.length_cons]
      omega
    | complete x pending active done hmem =>
      have hsub : (active.erase x).length ≤ active.length :=
        (List.erase_sublist x active).length_le
      simpa using Nat.le_trans hsub (by simpa using ih)

/-- Witness for `pool_concurrency_cap`: the 20-symbol queue after one
spawn. -/
theorem pool_concurrency_cap_witness :
    ({ pending := queue20.tail, running := ["EURUSD"],
        results := [] } : PoolState).running.length ≤ 6 :=
  pool_concurrency_cap (fun s => fetchWSJ fixedNet200 s "06/10/2024" "2024-06-10")
    queue20 _
    (Relation.ReflTransGen.single
      (PoolStep.spawn "EURUSD" queue20.tail [] [] (by decide)))

/-- A well-formed-date GET with no symbols whose coverage name hits the
inherited `Object.prototype.constructor`: the lookup yields a truthy
non-array, `symbols.map` throws, and the handler answers 500 with no
`total`, `ok`, `fail` or `items` — refuting C1 as originally stated
("for every valid request, total == ok + fail == |items|"). -/
theorem handler_batch_invariant_cex :
    parseRequest
        { method := Method.get, qdate := some "2024-06-10",
          qcoverage := some "constructor" }
      = Except.ok ("2024-06-10", CovValue.inherited) ∧
    handler
        { method := Method.get, qdate := some "2024-06-10",
          qcoverage := some "constructor" } fixedNet200 []
      = { code := 500, error := some "symbols.map is not a function" } :=
  ⟨rfl, rfl⟩

/-- A well-formed-date POST with no symbols and coverage `__proto__`: the
response is a 500, not 200 — refuting the original C5 sentence "the overall
response is still HTTP 200" for this valid request. -/
theorem fetch_errors_are_data_cex :
    parseRequest
        { method := Method.post, bdate := some "2024-06-10",
          bcoverage := some "__proto__" }
      = Except.ok ("2024-06-10", CovValue.inherited) ∧
    handler
        { method := Method.post, bdate := some "2024-06-10",
          bcoverage := some "__proto__" } fixedNet403 []
      = { code := 500, error := some "symbols.map is not a function" } :=
  ⟨rfl, rfl⟩

/-- A well-formed-date GET with no symbols and coverage `__proto__`: the
response carries no `items` array at all — refuting the original C7
sentence that every valid request's response has `items` sorted by
symbol. -/
theorem handler_items_sorted_cex :
    parseRequest
        { method := Method.get, qdate := some "2024-06-08",
          qcoverage := some "__proto__" }
      = Except.ok ("2024-06-08", CovValue.inherited) ∧
    (handler
        { method := Method.get, qdate := some "2024-06-08",
          qcoverage := some "__proto__" } fixedNet200 []).items = none ∧
    (handler
        { method := Method.get, qdate := some "2024-06-08",
          qcoverage := some "__proto__" } fixedNet200 []).code = 500 :=
  ⟨rfl, rfl, rfl⟩
